import Mathlib

/-!
Shallow embedding of the `token_stream2` Rust crate (src/lib.rs) and proofs
about its classification pass and iteration interface.

Modelling conventions:
* Rust `String` / `&str` values are Lean `String`s; the string-manipulation
  helpers of the Rust standard library (`starts_with`, `ends_with`,
  `trim_start_matches`, `trim_end_matches`, `trim_matches`, `trim`,
  `parse::<i128>`, `i128::from_str_radix(_, 16)`, `parse::<char>`,
  `parse::<f64>`) are modelled as executable functions on `List Char`
  following their documented semantics.
* `usize` arithmetic wraps modulo `2 ^ 64` (release-mode Rust semantics);
  the cursor field `iter_ptr` is a `Nat` and every increment is taken
  modulo `USIZE`.
* `proc_macro2::Span` is an opaque handle; it is modelled as a structure
  wrapping an abstract identifier.  Spans are only ever copied, never
  inspected.
* `f64` values are not modelled (the crate never computes with them); a
  `Token.Float` records the source text that the float grammar accepted.
* Panics (`unreachable!()` and failing `.expect(...)` calls) are modelled
  as the `Except.error` outcome of classification.
-/

set_option maxRecDepth 8000

/-- Decidable equality of `Except` results, for evaluating the classifier
on concrete inputs. -/
instance instDecEqExcept {e a : Type} [DecidableEq e] [DecidableEq a] :
    DecidableEq (Except e a) := fun x y =>
  match x, y with
  | .ok u, .ok v =>
    if h : u = v then isTrue (by rw [h])
    else isFalse (fun hh => h (Except.ok.inj hh))
  | .error u, .error v =>
    if h : u = v then isTrue (by rw [h])
    else isFalse (fun hh => h (Except.error.inj hh))
  | .ok _, .error _ => isFalse (fun hh => Except.noConfusion hh)
  | .error _, .ok _ => isFalse (fun hh => Except.noConfusion hh)

namespace TokenStream2

/-! ## Rust standard-library string and numeric helpers -/

/-- Unicode `White_Space` property, as used by Rust `str::trim`. -/
def isRustWhitespace (c : Char) : Bool :=
  let n := c.toNat
  n = 0x20 || (0x09 ≤ n && n ≤ 0x0d) || n = 0x85 || n = 0xa0 ||
  n = 0x1680 || (0x2000 ≤ n && n ≤ 0x200a) || n = 0x2028 || n = 0x2029 ||
  n = 0x202f || n = 0x205f || n = 0x3000

/-- Rust `str::starts_with` with a string pattern, on character lists. -/
def startsWithL (pat cs : List Char) : Bool := pat.isPrefixOf cs

/-- Rust `str::ends_with` with a string pattern, on character lists. -/
def endsWithL (pat cs : List Char) : Bool := pat.isSuffixOf cs

/-- Fuel-driven worker for `trimStartMatchesL`; `cs.length` fuel always
suffices because each round removes at least one character. -/
def trimStartAux (pat : List Char) : Nat → List Char → List Char
  | 0, cs => cs
  | fuel + 1, cs =>
    if pat ≠ [] && pat.isPrefixOf cs then
      trimStartAux pat fuel (cs.drop pat.length)
    else cs

/-- Rust `str::trim_start_matches` with a string pattern: repeatedly remove
the pattern from the front while it is a prefix. -/
def trimStartMatchesL (pat cs : List Char) : List Char :=
  trimStartAux pat cs.length cs

/-- Rust `str::trim_end_matches` with a char pattern: remove every trailing
occurrence of the character. -/
def trimEndMatchesL (c : Char) (cs : List Char) : List Char :=
  (cs.reverse.dropWhile (fun x => x = c)).reverse

/-- Rust `str::trim_matches` with a char pattern: remove every leading and
trailing occurrence of the character. -/
def trimMatchesL (c : Char) (cs : List Char) : List Char :=
  trimEndMatchesL c (cs.dropWhile (fun x => x = c))

/-- Rust `str::trim`: remove leading and trailing whitespace. -/
def trimWhitespaceL (cs : List Char) : List Char :=
  ((cs.dropWhile isRustWhitespace).reverse.dropWhile isRustWhitespace).reverse

/-- Optional leading `+`/`-` sign, as accepted by Rust integer and float
parsing; returns (is-negative, remaining characters). -/
def splitSign (cs : List Char) : Bool × List Char :=
  match cs with
  | [] => (false, [])
  | c :: rest =>
    if c = '+' then (false, rest)
    else if c = '-' then (true, rest)
    else (false, c :: rest)

/-- Numeric value of a decimal digit character. -/
def digitVal (c : Char) : Nat := c.toNat - '0'.toNat

/-- Value of a string of decimal digits. -/
def digitsVal (ds : List Char) : Nat :=
  ds.foldl (fun acc c => acc * 10 + digitVal c) 0

/-- Test for an ASCII hexadecimal digit (either case). -/
def isHexDigitC (c : Char) : Bool :=
  c.isDigit || ('a' ≤ c && c ≤ 'f') || ('A' ≤ c && c ≤ 'F')

/-- Numeric value of a hexadecimal digit character. -/
def hexDigitVal (c : Char) : Nat :=
  if c.isDigit then c.toNat - '0'.toNat
  else if 'a' ≤ c && c ≤ 'f' then c.toNat - 'a'.toNat + 10
  else c.toNat - 'A'.toNat + 10

/-- Value of a string of hexadecimal digits. -/
def hexVal (ds : List Char) : Nat :=
  ds.foldl (fun acc c => acc * 16 + hexDigitVal c) 0

/-- Smallest `i128` value. -/
def I128_MIN : Int := -(2 ^ 127)

/-- Largest `i128` value. -/
def I128_MAX : Int := 2 ^ 127 - 1

/-- Rust `str::parse::<i128>()`: optional sign, one or more decimal digits,
value within the `i128` range; anything else is an error (`none`). -/
def parse_i128 (cs : List Char) : Option Int :=
  match splitSign cs with
  | (neg, ds) =>
    if ds.isEmpty then none
    else if ds.all Char.isDigit then
      let v : Int := if neg then -(digitsVal ds : Int) else (digitsVal ds : Int)
      if I128_MIN ≤ v ∧ v ≤ I128_MAX then some v else none
    else none

/-- Rust `i128::from_str_radix(s, 16)`: optional sign, one or more hex
digits, value within the `i128` range. -/
def from_str_radix16 (cs : List Char) : Option Int :=
  match splitSign cs with
  | (neg, ds) =>
    if ds.isEmpty then none
    else if ds.all isHexDigitC then
      let v : Int := if neg then -(hexVal ds : Int) else (hexVal ds : Int)
      if I128_MIN ≤ v ∧ v ≤ I128_MAX then some v else none
    else none

/-- Rust `str::parse::<char>()`: succeeds exactly on one-character strings. -/
def parseCharStd : List Char → Option Char
  | [c] => some c
  | _ => none

/-- Exponent part of the Rust `f64` grammar: `(e|E) Sign? Digit+`. -/
def isExpPart (cs : List Char) : Bool :=
  match cs with
  | c :: rest =>
    (c = 'e' || c = 'E') &&
      (match splitSign rest with
       | (_, ds) => !ds.isEmpty && ds.all Char.isDigit)
  | [] => false

/-- Number part of the Rust `f64` grammar (after the optional sign):
`Digit+ | Digit+ . Digit* | Digit* . Digit+`, optionally followed by an
exponent. -/
def isNumberBody (cs : List Char) : Bool :=
  let d1 := cs.takeWhile Char.isDigit
  let r1 := cs.dropWhile Char.isDigit
  match r1 with
  | [] => !d1.isEmpty
  | '.' :: r2 =>
    let d2 := r2.takeWhile Char.isDigit
    let r3 := r2.dropWhile Char.isDigit
    (!d1.isEmpty || !d2.isEmpty) && (r3.isEmpty || isExpPart r3)
  | r => !d1.isEmpty && isExpPart r

/-- Rust `str::parse::<f64>()` acceptance: `Sign? (inf|infinity|nan|Number)`
with case-insensitive keywords.  Overflow saturates to infinity in Rust, so
acceptance is purely grammatical. -/
def isF64Literal (cs : List Char) : Bool :=
  match splitSign cs with
  | (_, body) =>
    let lower := body.map Char.toLower
    lower = ['i', 'n', 'f'] ||
    lower = ['i', 'n', 'f', 'i', 'n', 'i', 't', 'y'] ||
    lower = ['n', 'a', 'n'] ||
    isNumberBody body

/-! ## Data model (`Token`, `SpannedToken`, `TokenStream`, token trees) -/

/-- Opaque `proc_macro2::Span` handle, modelled as an abstract identifier. -/
structure Span where
  id : Nat
deriving DecidableEq, Repr

/-- The `Token` enum of src/lib.rs: every token kind a procedural macro can
observe through this crate. -/
inductive Token where
  | Ident (text : String)
  | Integer (value : Int)
  | Float (reprText : String)
  | ByteChar (c : Char)
  | Char (c : Char)
  | ByteString (s : String)
  | String (s : String)
  | Plus
  | Minus
  | Slash
  | Star
  | At
  | Ampersand
  | Semi
  | Colon
  | GreaterThan
  | LessThan
  | OpenBrace
  | CloseBrace
  | OpenBracket
  | CloseBracket
  | OpenParen
  | CloseParen
  | Comma
  | SingleQuote
  | DoubleQuote
  | Bang
  | Question
  | Dot
  | Tilde
  | Percent
  | Caret
  | Pipe
  | Hash
  | Dollar
  | Equal
  | None
  | Literal (text : String)
deriving DecidableEq, Repr

/-- The `SpannedToken` struct: a `Token` with its span. -/
structure SpannedToken where
  token : Token
  span : Span
deriving DecidableEq, Repr

/-- The `TokenStream` struct: classified tokens plus the cursor
`iter_ptr : usize`. -/
structure TokenStream where
  tokens : List SpannedToken
  iter_ptr : Nat
deriving DecidableEq, Repr

/-- The `proc_macro2::Delimiter` enum. -/
inductive Delimiter where
  | Parenthesis
  | Brace
  | Bracket
  | None
deriving DecidableEq, Repr

mutual
/-- A `proc_macro2::TokenTree`: group, identifier, punctuation or literal.
Identifiers, punctuation and literals carry the text the host tokenizer
would print for them (`ident.to_string()`, `punct.as_char()`,
`literal.to_string()`). -/
inductive TokenTree where
  | Group (delim : Delimiter) (span : Span) (stream : TokenTreeSeq)
  | Ident (text : String) (span : Span)
  | Punct (ch : Char) (span : Span)
  | Literal (text : String) (span : Span)
/-- A `proc_macro2::TokenStream`: a sequence of token trees. -/
inductive TokenTreeSeq where
  | nil
  | cons (t : TokenTree) (ts : TokenTreeSeq)
end

/-- One fatal outcome of `recursive_convert`: either the `unreachable!()`
arm for an unsupported punctuation character, or a failing `.expect(...)`. -/
inductive ConvertError where
  | unreachableBranch (c : Char)
  | expectFailed (msg : String)
deriving DecidableEq, Repr

/-! ## The classifier (`recursive_convert` of src/lib.rs) -/

/-- The punctuation-character table of the `TokenTree::Punct` arm
(src/lib.rs lines 193-218); `none` is the `_ => unreachable!()` arm. -/
def punct_token : Char → Option Token
  | '+' => some Token.Plus
  | '-' => some Token.Minus
  | '>' => some Token.GreaterThan
  | '<' => some Token.LessThan
  | '@' => some Token.At
  | '/' => some Token.Slash
  | '*' => some Token.Star
  | '&' => some Token.Ampersand
  | ';' => some Token.Semi
  | ':' => some Token.Colon
  | '"' => some Token.DoubleQuote
  | '\'' => some Token.SingleQuote
  | '?' => some Token.Question
  | '!' => some Token.Bang
  | ',' => some Token.Comma
  | '.' => some Token.Dot
  | '~' => some Token.Tilde
  | '%' => some Token.Percent
  | '^' => some Token.Caret
  | '|' => some Token.Pipe
  | '#' => some Token.Hash
  | '$' => some Token.Dollar
  | '=' => some Token.Equal
  | _ => none

/-- Step 1 of the literal arm: `literal.to_string().parse::<i128>()`
(src/lib.rs lines 226-232).  The state is (panic flag, output so far). -/
def litIntStep (cs : List Char) (sp : Span) (st : Bool × List SpannedToken) :
    Bool × List SpannedToken :=
  match parse_i128 cs with
  | some int_value => (false, st.2 ++ [⟨Token.Integer int_value, sp⟩])
  | none => st

/-- Step 2: `literal.to_string().parse::<f64>()` (lines 234-240). -/
def litFloatStep (cs : List Char) (str_value : String) (sp : Span)
    (st : Bool × List SpannedToken) : Bool × List SpannedToken :=
  if isF64Literal cs then (false, st.2 ++ [⟨Token.Float str_value, sp⟩]) else st

/-- Step 3: the `0x` branch with `i128::from_str_radix(.., 16)`
(lines 242-252).  The panic flag is cleared only when the hex parse
succeeds. -/
def litHexStep (cs : List Char) (sp : Span) (st : Bool × List SpannedToken) :
    Bool × List SpannedToken :=
  if startsWithL ['0', 'x'] cs then
    match from_str_radix16 (trimStartMatchesL ['0', 'x'] cs) with
    | some int_value => (false, st.2 ++ [⟨Token.Integer int_value, sp⟩])
    | none => st
  else st

/-- Step 4: the byte-char branch (lines 253-264); the `.expect(...)` call
panics when the trimmed text is not exactly one character. -/
def litByteCharStep (cs : List Char) (sp : Span) (st : Bool × List SpannedToken) :
    Except ConvertError (Bool × List SpannedToken) :=
  if startsWithL ['b', '\''] cs && endsWithL ['\''] cs then
    match parseCharStd (trimEndMatchesL '\'' (trimStartMatchesL ['b', '\''] cs)) with
    | some as_char => .ok (false, st.2 ++ [⟨Token.ByteChar as_char, sp⟩])
    | none => .error (.expectFailed "infallible - guaranteed to be a char")
  else .ok st

/-- Step 5: the char branch (lines 265-276): trim quotes, trim whitespace,
then `.parse::<char>().expect(...)`. -/
def litCharStep (cs : List Char) (sp : Span) (st : Bool × List SpannedToken) :
    Except ConvertError (Bool × List SpannedToken) :=
  if startsWithL ['\''] cs && endsWithL ['\''] cs then
    match parseCharStd (trimWhitespaceL (trimMatchesL '\'' cs)) with
    | some as_char => .ok (false, st.2 ++ [⟨Token.Char as_char, sp⟩])
    | none => .error (.expectFailed "infallible - guaranteed to be a char")
  else .ok st

/-- Step 6: the string branch (lines 277-283). -/
def litStrStep (cs : List Char) (sp : Span) (st : Bool × List SpannedToken) :
    Bool × List SpannedToken :=
  if startsWithL ['"'] cs && endsWithL ['"'] cs then
    (false, st.2 ++ [⟨Token.String (String.mk (trimMatchesL '"' cs)), sp⟩])
  else st

/-- Step 7: the byte-string branch (lines 284-295); note that it emits
`Token.String`, not `Token.ByteString`. -/
def litByteStrStep (cs : List Char) (sp : Span) (st : Bool × List SpannedToken) :
    Bool × List SpannedToken :=
  if startsWithL ['b', '"'] cs && endsWithL ['"'] cs then
    (false,
      st.2 ++
        [⟨Token.String (String.mk (trimStartMatchesL ['b', '"'] (trimEndMatchesL '"' cs))), sp⟩])
  else st

/-- The whole `TokenTree::Literal` arm (lines 224-302): run every heuristic
in order, then append the `Token.Literal` fallback when none matched. -/
def convertLiteral (str_value : String) (sp : Span) :
    Except ConvertError (List SpannedToken) :=
  let cs := str_value.data
  let st := litIntStep cs sp (true, [])
  let st := litFloatStep cs str_value sp st
  let st := litHexStep cs sp st
  match litByteCharStep cs sp st with
  | .error e => .error e
  | .ok st =>
    match litCharStep cs sp st with
    | .error e => .error e
    | .ok st =>
      let st := litStrStep cs sp st
      let st := litByteStrStep cs sp st
      if st.1 then .ok (st.2 ++ [⟨Token.Literal str_value, sp⟩]) else .ok st.2

mutual
/-- One iteration of the `for token in tokens` loop of `recursive_convert`:
the list of spanned tokens this tree contributes, or the panic outcome. -/
def convert_token_tree : TokenTree → Except ConvertError (List SpannedToken)
  | .Group delim sp inner =>
    match convert_token_trees inner with
    | .error e => .error e
    | .ok inner_toks =>
      .ok
        (⟨(match delim with
            | .Parenthesis => Token.OpenParen
            | .Brace => Token.OpenBrace
            | .Bracket => Token.OpenBracket
            | .None => Token.None), sp⟩ ::
          (inner_toks ++
            [⟨(match delim with
                | .Parenthesis => Token.CloseParen
                | .Brace => Token.CloseBrace
                | .Bracket => Token.CloseBracket
                | .None => Token.None), sp⟩]))
  | .Ident text sp => .ok [⟨Token.Ident text, sp⟩]
  | .Punct ch sp =>
    match punct_token ch with
    | some tok => .ok [⟨tok, sp⟩]
    | none => .error (.unreachableBranch ch)
  | .Literal text sp => convertLiteral text sp
/-- The `tokens_output` accumulation over a whole token-tree sequence. -/
def convert_token_trees : TokenTreeSeq → Except ConvertError (List SpannedToken)
  | .nil => .ok []
  | .cons t ts =>
    match convert_token_tree t with
    | .error e => .error e
    | .ok toks =>
      match convert_token_trees ts with
      | .error e => .error e
      | .ok rest => .ok (toks ++ rest)
end

/-- The `recursive_convert` entry point (src/lib.rs lines 158-311): classify
the whole input and package it with `iter_ptr: 0`. -/
def recursive_convert (tokens : TokenTreeSeq) : Except ConvertError TokenStream :=
  match convert_token_trees tokens with
  | .error e => .error e
  | .ok tokens_output => .ok ⟨tokens_output, 0⟩

/-! ## The iteration interface (`Iterator::next` and `peek`) -/

/-- Number of values of `usize` on a 64-bit target. -/
def USIZE : Nat := 2 ^ 64

/-- The `Iterator::next` implementation (src/lib.rs lines 125-128):
`self.iter_ptr += 1; self.tokens.get(self.iter_ptr).cloned()`.  Returns the
yielded item and the mutated stream. -/
def TokenStream.next (self : TokenStream) : Option SpannedToken × TokenStream :=
  let iter_ptr := (self.iter_ptr + 1) % USIZE
  (self.tokens[iter_ptr]?, ⟨self.tokens, iter_ptr⟩)

/-- The `peek` method (src/lib.rs lines 147-149):
`self.tokens.get(self.iter_ptr + ahead).cloned()`.  It takes `&mut self` but
never writes to it, so the returned stream is the input stream. -/
def TokenStream.peek (self : TokenStream) (ahead : Nat) :
    Option SpannedToken × TokenStream :=
  (self.tokens[(self.iter_ptr + ahead) % USIZE]?, self)

/-- Iterated sequential advance: the stream state after `k` calls to
`next`. -/
def advanceN : Nat → TokenStream → TokenStream
  | 0, s => s
  | k + 1, s => advanceN k (s.next).2

/-- An observable operation on a stream: a lookahead or an advance. -/
inductive StreamOp where
  | peekAt (n : Nat)
  | advance

/-- Test for the advance operation. -/
def StreamOp.isAdvance : StreamOp → Bool
  | .peekAt _ => false
  | .advance => true

/-- Run a list of operations, collecting the results of the `next` calls
and the final stream state. -/
def runOps : List StreamOp → TokenStream → List (Option SpannedToken) × TokenStream
  | [], s => ([], s)
  | .peekAt n :: ops, s => runOps ops (s.peek n).2
  | .advance :: ops, s =>
    ((s.next).1 :: (runOps ops (s.next).2).1, (runOps ops (s.next).2).2)

/-- Open-marker token kind the spec assigns to each grouping delimiter
(parenthesis→open-paren, brace→open-brace, bracket→open-bracket, none→None). -/
def openMarker : Delimiter → Token
  | .Parenthesis => .OpenParen
  | .Brace => .OpenBrace
  | .Bracket => .OpenBracket
  | .None => .None

/-- Close-marker token kind the spec assigns to each grouping delimiter. -/
def closeMarker : Delimiter → Token
  | .Parenthesis => .CloseParen
  | .Brace => .CloseBrace
  | .Bracket => .CloseBracket
  | .None => .None

/-- The punctuation characters the punctuation table of the source actually
maps, paired with the matching token kind; the bracket characters of the
spec set are absent because they reach the fatal branch. -/
def supportedPunctPairs : List (Char × Token) :=
  [('+', .Plus), ('-', .Minus), ('/', .Slash), ('*', .Star), ('@', .At),
   ('&', .Ampersand), (';', .Semi), (':', .Colon), ('>', .GreaterThan),
   ('<', .LessThan), (',', .Comma), ('\'', .SingleQuote), ('"', .DoubleQuote),
   ('!', .Bang), ('?', .Question), ('.', .Dot), ('~', .Tilde), ('%', .Percent),
   ('^', .Caret), ('|', .Pipe), ('#', .Hash), ('$', .Dollar), ('=', .Equal)]


/-! ## Helper lemmas -/

/-- Specification-level summary of the literal heuristics: true iff at least
one of the seven heuristic attempts of the literal arm matches (for the two
quote-delimited char forms, "matches" means the prefix/suffix guard holds,
which is what clears the panic flag in the source). -/
def literalHeuristicMatches (cs : List Char) : Bool :=
  (parse_i128 cs).isSome || isF64Literal cs ||
  (startsWithL ['0', 'x'] cs &&
    (from_str_radix16 (trimStartMatchesL ['0', 'x'] cs)).isSome) ||
  (startsWithL ['b', '\''] cs && endsWithL ['\''] cs) ||
  (startsWithL ['\''] cs && endsWithL ['\''] cs) ||
  (startsWithL ['"'] cs && endsWithL ['"'] cs) ||
  (startsWithL ['b', '"'] cs && endsWithL ['"'] cs)

lemma takeWhile_all {α} (p : α → Bool) (l : List α) (h : ∀ x ∈ l, p x) :
    l.takeWhile p = l := by
  induction l with
  | nil => rfl
  | cons a l ih =>
    rw [List.takeWhile_cons, h a (by simp)]
    simp [ih fun x hx => h x (by simp [hx])]

lemma dropWhile_all {α} (p : α → Bool) (l : List α) (h : ∀ x ∈ l, p x) :
    l.dropWhile p = [] := by
  induction l with
  | nil => rfl
  | cons a l ih =>
    rw [List.dropWhile_cons, h a (by simp)]
    simp [ih fun x hx => h x (by simp [hx])]

lemma splitSign_cases (cs : List Char) :
    cs = [] ∨
    (∃ rest, cs = '+' :: rest ∧ splitSign cs = (false, rest)) ∨
    (∃ rest, cs = '-' :: rest ∧ splitSign cs = (true, rest)) ∨
    (∃ c rest, cs = c :: rest ∧ c ≠ '+' ∧ c ≠ '-' ∧ splitSign cs = (false, c :: rest)) := by
  match cs with
  | [] => exact Or.inl rfl
  | c :: rest =>
    by_cases h1 : c = '+'
    · subst h1
      exact Or.inr (Or.inl ⟨rest, rfl, by simp [splitSign]⟩)
    · by_cases h2 : c = '-'
      · subst h2
        exact Or.inr (Or.inr (Or.inl ⟨rest, rfl, by simp [splitSign]⟩))
      · exact Or.inr (Or.inr (Or.inr ⟨c, rest, rfl, h1, h2, by simp [splitSign, h1, h2]⟩))

lemma parse_i128_shape {cs : List Char} {n : Int} (h : parse_i128 cs = some n) :
    ∃ neg ds, splitSign cs = (neg, ds) ∧ ds ≠ [] ∧ ∀ c ∈ ds, c.isDigit := by
  rcases hs : splitSign cs with ⟨neg, ds⟩
  simp only [parse_i128, hs] at h
  by_cases h1 : ds.isEmpty
  · rw [if_pos h1] at h
    exact Option.noConfusion h
  · rw [if_neg h1] at h
    by_cases h2 : ds.all Char.isDigit
    · exact ⟨neg, ds, rfl, fun hnil => h1 (by simp [hnil]),
        fun c hc => List.all_eq_true.mp h2 c hc⟩
    · rw [if_neg h2] at h
      exact Option.noConfusion h

lemma parse_i128_head {cs : List Char} {n : Int} (h : parse_i128 cs = some n) :
    ∃ c cs2, cs = c :: cs2 ∧
      (((c = '+' ∨ c = '-') ∧ cs2 ≠ [] ∧ ∀ x ∈ cs2, x.isDigit) ∨ ∀ x ∈ cs, x.isDigit) := by
  obtain ⟨neg, ds, hs, hne, hdig⟩ := parse_i128_shape h
  rcases splitSign_cases cs with hnil | ⟨rest, hcs, hsp⟩ | ⟨rest, hcs, hsp⟩ |
      ⟨c, rest, hcs, _, _, hsp⟩
  · subst hnil
    rw [show splitSign [] = (false, []) from rfl] at hs
    injection hs with h1 h2
    exact absurd h2.symm hne
  · rw [hsp] at hs
    injection hs with hn hd
    subst hd
    exact ⟨'+', rest, hcs, Or.inl ⟨Or.inl rfl, hne, hdig⟩⟩
  · rw [hsp] at hs
    injection hs with hn hd
    subst hd
    exact ⟨'-', rest, hcs, Or.inl ⟨Or.inr rfl, hne, hdig⟩⟩
  · rw [hsp] at hs
    injection hs with hn hd
    subst hd
    refine ⟨c, rest, hcs, Or.inr ?_⟩
    rw [hcs]
    exact hdig

lemma startsWithL_cons_iff (p c : Char) (ps cs2 : List Char) :
    startsWithL (p :: ps) (c :: cs2) = (p == c && startsWithL ps cs2) := by
  simp [startsWithL, List.isPrefixOf]

lemma startsWithL_cons_false {p c : Char} (ps cs2 : List Char) (h : p ≠ c) :
    startsWithL (p :: ps) (c :: cs2) = false := by
  rw [startsWithL_cons_iff]
  simp [h]

lemma startsWithL_nil_false (p : Char) (ps : List Char) :
    startsWithL (p :: ps) [] = false := by
  simp [startsWithL, List.isPrefixOf]

lemma startsWithL_two {a b : Char} {cs : List Char}
    (h : startsWithL [a, b] cs = true) : ∃ r, cs = a :: b :: r := by
  match cs with
  | [] => rw [startsWithL_nil_false] at h; cases h
  | [c] =>
    rw [startsWithL_cons_iff] at h
    simp [startsWithL_nil_false] at h
  | c :: d :: r =>
    rw [startsWithL_cons_iff] at h
    simp [startsWithL_cons_iff] at h
    exact ⟨r, by rw [h.1, h.2.1]⟩

lemma isDigit_ne {c d : Char} (h : c.isDigit = true) (hd : d.isDigit = false) :
    c ≠ d := by
  intro e
  subst e
  rw [h] at hd
  cases hd

/-! ## Step lemmas for the literal heuristics -/

lemma litIntStep_fst (cs : List Char) (sp : Span) (st : Bool × List SpannedToken) :
    (litIntStep cs sp st).1 = (st.1 && !(parse_i128 cs).isSome) := by
  unfold litIntStep
  cases parse_i128 cs <;> simp

lemma litFloatStep_fst (cs : List Char) (sv : String) (sp : Span)
    (st : Bool × List SpannedToken) :
    (litFloatStep cs sv sp st).1 = (st.1 && !isF64Literal cs) := by
  unfold litFloatStep
  cases h : isF64Literal cs <;> simp

lemma litHexStep_fst (cs : List Char) (sp : Span) (st : Bool × List SpannedToken) :
    (litHexStep cs sp st).1 =
      (st.1 && !(startsWithL ['0', 'x'] cs &&
        (from_str_radix16 (trimStartMatchesL ['0', 'x'] cs)).isSome)) := by
  unfold litHexStep
  cases h : startsWithL ['0', 'x'] cs
  · simp
  · cases hp : from_str_radix16 (trimStartMatchesL ['0', 'x'] cs) <;> simp [hp]

lemma litByteCharStep_ok_fst {cs : List Char} {sp : Span}
    {st st2 : Bool × List SpannedToken} (h : litByteCharStep cs sp st = .ok st2) :
    st2.1 = (st.1 && !(startsWithL ['b', '\''] cs && endsWithL ['\''] cs)) := by
  unfold litByteCharStep at h
  cases hg : startsWithL ['b', '\''] cs && endsWithL ['\''] cs
  · rw [hg] at h
    simp at h
    rw [← h]
    simp
  · rw [hg] at h
    simp at h
    cases hp : parseCharStd (trimEndMatchesL '\'' (trimStartMatchesL ['b', '\''] cs))
    · rw [hp] at h
      exact Except.noConfusion h
    · rw [hp] at h
      injection h with h
      rw [← h]
      simp

lemma litCharStep_ok_fst {cs : List Char} {sp : Span}
    {st st2 : Bool × List SpannedToken} (h : litCharStep cs sp st = .ok st2) :
    st2.1 = (st.1 && !(startsWithL ['\''] cs && endsWithL ['\''] cs)) := by
  unfold litCharStep at h
  cases hg : startsWithL ['\''] cs && endsWithL ['\''] cs
  · rw [hg] at h
    simp at h
    rw [← h]
    simp
  · rw [hg] at h
    simp at h
    cases hp : parseCharStd (trimWhitespaceL (trimMatchesL '\'' cs))
    · rw [hp] at h
      exact Except.noConfusion h
    · rw [hp] at h
      injection h with h
      rw [← h]
      simp

lemma litStrStep_fst (cs : List Char) (sp : Span) (st : Bool × List SpannedToken) :
    (litStrStep cs sp st).1 = (st.1 && !(startsWithL ['"'] cs && endsWithL ['"'] cs)) := by
  unfold litStrStep
  cases h : startsWithL ['"'] cs && endsWithL ['"'] cs <;> simp [h]

lemma litByteStrStep_fst (cs : List Char) (sp : Span) (st : Bool × List SpannedToken) :
    (litByteStrStep cs sp st).1 =
      (st.1 && !(startsWithL ['b', '"'] cs && endsWithL ['"'] cs)) := by
  unfold litByteStrStep
  cases h : startsWithL ['b', '"'] cs && endsWithL ['"'] cs <;> simp [h]

lemma litIntStep_mem {cs sp st} {x : SpannedToken} (hx : x ∈ (litIntStep cs sp st).2) :
    x ∈ st.2 ∨ ∃ v, x.token = Token.Integer v := by
  unfold litIntStep at hx
  cases h : parse_i128 cs <;> rw [h] at hx
  · exact Or.inl hx
  · simp at hx
    rcases hx with hx | hx
    · exact Or.inl hx
    · exact Or.inr ⟨_, by rw [hx]⟩

lemma litFloatStep_mem {cs sv sp st} {x : SpannedToken}
    (hx : x ∈ (litFloatStep cs sv sp st).2) :
    x ∈ st.2 ∨ x.token = Token.Float sv := by
  unfold litFloatStep at hx
  cases h : isF64Literal cs <;> rw [h] at hx
  · exact Or.inl hx
  · simp at hx
    rcases hx with hx | hx
    · exact Or.inl hx
    · exact Or.inr (by rw [hx])

lemma litHexStep_mem {cs sp st} {x : SpannedToken} (hx : x ∈ (litHexStep cs sp st).2) :
    x ∈ st.2 ∨ ∃ v, x.token = Token.Integer v := by
  unfold litHexStep at hx
  cases hg : startsWithL ['0', 'x'] cs <;> rw [hg] at hx
  · exact Or.inl hx
  · simp at hx
    cases h : from_str_radix16 (trimStartMatchesL ['0', 'x'] cs) <;> rw [h] at hx
    · exact Or.inl hx
    · simp at hx
      rcases hx with hx | hx
      · exact Or.inl hx
      · exact Or.inr ⟨_, by rw [hx]⟩

lemma litByteCharStep_ok_mem {cs sp st st2} {x : SpannedToken}
    (h : litByteCharStep cs sp st = .ok st2) (hx : x ∈ st2.2) :
    x ∈ st.2 ∨ ∃ c, x.token = Token.ByteChar c := by
  unfold litByteCharStep at h
  cases hg : startsWithL ['b', '\''] cs && endsWithL ['\''] cs <;> rw [hg] at h
  · simp at h
    rw [← h] at hx
    exact Or.inl hx
  · simp at h
    cases hp : parseCharStd (trimEndMatchesL '\'' (trimStartMatchesL ['b', '\''] cs)) <;>
        rw [hp] at h
    · exact Except.noConfusion h
    · injection h with h
      rw [← h] at hx
      simp at hx
      rcases hx with hx | hx
      · exact Or.inl hx
      · exact Or.inr ⟨_, by rw [hx]⟩

lemma litCharStep_ok_mem {cs sp st st2} {x : SpannedToken}
    (h : litCharStep cs sp st = .ok st2) (hx : x ∈ st2.2) :
    x ∈ st.2 ∨ ∃ c, x.token = Token.Char c := by
  unfold litCharStep at h
  cases hg : startsWithL ['\''] cs && endsWithL ['\''] cs <;> rw [hg] at h
  · simp at h
    rw [← h] at hx
    exact Or.inl hx
  · simp at h
    cases hp : parseCharStd (trimWhitespaceL (trimMatchesL '\'' cs)) <;> rw [hp] at h
    · exact Except.noConfusion h
    · injection h with h
      rw [← h] at hx
      simp at hx
      rcases hx with hx | hx
      · exact Or.inl hx
      · exact Or.inr ⟨_, by rw [hx]⟩

lemma litStrStep_mem {cs sp st} {x : SpannedToken} (hx : x ∈ (litStrStep cs sp st).2) :
    x ∈ st.2 ∨ ∃ t, x.token = Token.String t := by
  unfold litStrStep at hx
  cases hg : startsWithL ['"'] cs && endsWithL ['"'] cs <;> rw [hg] at hx
  · exact Or.inl hx
  · simp at hx
    rcases hx with hx | hx
    · exact Or.inl hx
    · exact Or.inr ⟨_, by rw [hx]⟩

lemma litByteStrStep_mem {cs sp st} {x : SpannedToken}
    (hx : x ∈ (litByteStrStep cs sp st).2) :
    x ∈ st.2 ∨ ∃ t, x.token = Token.String t := by
  unfold litByteStrStep at hx
  cases hg : startsWithL ['b', '"'] cs && endsWithL ['"'] cs <;> rw [hg] at hx
  · exact Or.inl hx
  · simp at hx
    rcases hx with hx | hx
    · exact Or.inl hx
    · exact Or.inr ⟨_, by rw [hx]⟩

lemma litHexStep_id {cs sp st}
    (h : (startsWithL ['0', 'x'] cs &&
      (from_str_radix16 (trimStartMatchesL ['0', 'x'] cs)).isSome) = false) :
    litHexStep cs sp st = st := by
  unfold litHexStep
  cases hg : startsWithL ['0', 'x'] cs
  · rfl
  · rw [hg] at h
    simp at h
    rw [h]
    simp

lemma litByteCharStep_id {cs sp st}
    (h : (startsWithL ['b', '\''] cs && endsWithL ['\''] cs) = false) :
    litByteCharStep cs sp st = .ok st := by
  unfold litByteCharStep
  rw [h]
  simp

lemma litCharStep_id {cs sp st}
    (h : (startsWithL ['\''] cs && endsWithL ['\''] cs) = false) :
    litCharStep cs sp st = .ok st := by
  unfold litCharStep
  rw [h]
  simp

lemma litIntStep_id {cs sp st} (h : parse_i128 cs = none) : litIntStep cs sp st = st := by
  unfold litIntStep
  rw [h]

lemma litFloatStep_id {cs sv sp st} (h : isF64Literal cs = false) :
    litFloatStep cs sv sp st = st := by
  unfold litFloatStep
  rw [h]
  simp

lemma litStrStep_id {cs sp st} (h : (startsWithL ['"'] cs && endsWithL ['"'] cs) = false) :
    litStrStep cs sp st = st := by
  unfold litStrStep
  rw [h]
  simp

lemma litByteStrStep_id {cs sp st}
    (h : (startsWithL ['b', '"'] cs && endsWithL ['"'] cs) = false) :
    litByteStrStep cs sp st = st := by
  unfold litByteStrStep
  rw [h]
  simp

lemma convertLiteral_no_match {s : String} {sp : Span}
    (h : literalHeuristicMatches s.data = false) :
    convertLiteral s sp = .ok [⟨Token.Literal s, sp⟩] := by
  unfold literalHeuristicMatches at h
  simp only [Bool.or_eq_false_iff] at h
  obtain ⟨⟨⟨⟨⟨⟨h1, h2⟩, h3⟩, h4⟩, h5⟩, h6⟩, h7⟩ := h
  have hp : parse_i128 s.data = none := by
    cases hq : parse_i128 s.data
    · rfl
    · rw [hq] at h1
      simp at h1
  simp only [convertLiteral, litIntStep_id hp, litFloatStep_id h2, litHexStep_id h3,
    litByteCharStep_id h4, litCharStep_id h5, litStrStep_id h6, litByteStrStep_id h7]
  simp

lemma convertLiteral_ok_mem {s : String} {sp : Span} {out : List SpannedToken}
    (h : convertLiteral s sp = .ok out) :
    ∀ x ∈ out,
      (∃ v, x.token = Token.Integer v) ∨ x.token = Token.Float s ∨
      (∃ c, x.token = Token.ByteChar c) ∨ (∃ c, x.token = Token.Char c) ∨
      (∃ t, x.token = Token.String t) ∨
      (x.token = Token.Literal s ∧ literalHeuristicMatches s.data = false) := by
  intro x hx
  simp only [convertLiteral] at h
  cases h4 : litByteCharStep s.data sp
      (litHexStep s.data sp (litFloatStep s.data s sp (litIntStep s.data sp (true, [])))) with
  | error e =>
    rw [h4] at h
    exact Except.noConfusion h
  | ok stB =>
    rw [h4] at h
    simp only [] at h
    cases h5 : litCharStep s.data sp stB with
    | error e =>
      rw [h5] at h
      exact Except.noConfusion h
    | ok stC =>
      rw [h5] at h
      simp only [] at h
      by_cases hflag :
          (litByteStrStep s.data sp (litStrStep s.data sp stC)).1 = true
      · rw [if_pos hflag] at h
        injection h with h
        subst h
        -- `x` is either one of the heuristic tokens or the fallback
        rcases List.mem_append.mp hx with hx2 | hx2
        · have hmem := litByteStrStep_mem hx2
          rcases hmem with hmem | hmem
          case _ =>
            have hmem2 := litStrStep_mem hmem
            rcases hmem2 with hmem2 | hmem2
            case _ =>
              have hmem3 := litCharStep_ok_mem h5 hmem2
              rcases hmem3 with hmem3 | hmem3
              case _ =>
                have hmem4 := litByteCharStep_ok_mem h4 hmem3
                rcases hmem4 with hmem4 | hmem4
                case _ =>
                  have hmem5 := litHexStep_mem hmem4
                  rcases hmem5 with hmem5 | hmem5
                  case _ =>
                    have hmem6 := litFloatStep_mem hmem5
                    rcases hmem6 with hmem6 | hmem6
                    case _ =>
                      have hmem7 := litIntStep_mem hmem6
                      rcases hmem7 with hmem7 | hmem7
                      case _ => simp at hmem7
                      case _ => exact Or.inl hmem7
                    case _ => exact Or.inr (Or.inl hmem6)
                  case _ => exact Or.inl hmem5
                case _ => exact Or.inr (Or.inr (Or.inl hmem4))
              case _ => exact Or.inr (Or.inr (Or.inr (Or.inl hmem3)))
            case _ => exact Or.inr (Or.inr (Or.inr (Or.inr (Or.inl hmem2))))
          case _ => exact Or.inr (Or.inr (Or.inr (Or.inr (Or.inl hmem))))
        · simp at hx2
          refine Or.inr (Or.inr (Or.inr (Or.inr (Or.inr ⟨by rw [hx2], ?_⟩))))
          -- the final flag is true, hence no heuristic matched
          rw [litByteStrStep_fst, litStrStep_fst, litCharStep_ok_fst h5,
            litByteCharStep_ok_fst h4, litHexStep_fst, litFloatStep_fst,
            litIntStep_fst] at hflag
          simp only [Bool.and_eq_true, Bool.not_eq_true'] at hflag
          unfold literalHeuristicMatches
          obtain ⟨⟨⟨⟨⟨⟨⟨-, g1⟩, g2⟩, g3⟩, g4⟩, g5⟩, g6⟩, g7⟩ := hflag
          simp [g1, g2, g3, g4, g5, g6, g7]
      · rw [if_neg hflag] at h
        injection h with h
        subst h
        have hmem := litByteStrStep_mem hx
        rcases hmem with hmem | hmem
        case _ =>
          have hmem2 := litStrStep_mem hmem
          rcases hmem2 with hmem2 | hmem2
          case _ =>
            have hmem3 := litCharStep_ok_mem h5 hmem2
            rcases hmem3 with hmem3 | hmem3
            case _ =>
              have hmem4 := litByteCharStep_ok_mem h4 hmem3
              rcases hmem4 with hmem4 | hmem4
              case _ =>
                have hmem5 := litHexStep_mem hmem4
                rcases hmem5 with hmem5 | hmem5
                case _ =>
                  have hmem6 := litFloatStep_mem hmem5
                  rcases hmem6 with hmem6 | hmem6
                  case _ =>
                    have hmem7 := litIntStep_mem hmem6
                    rcases hmem7 with hmem7 | hmem7
                    case _ => simp at hmem7
                    case _ => exact Or.inl hmem7
                  case _ => exact Or.inr (Or.inl hmem6)
                case _ => exact Or.inl hmem5
              case _ => exact Or.inr (Or.inr (Or.inl hmem4))
            case _ => exact Or.inr (Or.inr (Or.inr (Or.inl hmem3)))
          case _ => exact Or.inr (Or.inr (Or.inr (Or.inr (Or.inl hmem2))))
        case _ => exact Or.inr (Or.inr (Or.inr (Or.inr (Or.inl hmem))))

lemma isF64Literal_of_parse_i128 {cs : List Char} {n : Int}
    (h : parse_i128 cs = some n) : isF64Literal cs = true := by
  obtain ⟨neg, ds, hs, hne, hdig⟩ := parse_i128_shape h
  have hnb : isNumberBody ds = true := by
    unfold isNumberBody
    rw [dropWhile_all Char.isDigit ds hdig]
    rw [takeWhile_all Char.isDigit ds hdig]
    cases ds with
    | nil => exact absurd rfl hne
    | cons a l => simp
  simp [isF64Literal, hs, hnb]

lemma guards_false_of_parse_i128 {cs : List Char} {n : Int}
    (h : parse_i128 cs = some n) :
    startsWithL ['0', 'x'] cs = false ∧ startsWithL ['b', '\''] cs = false ∧
    startsWithL ['\''] cs = false ∧ startsWithL ['"'] cs = false ∧
    startsWithL ['b', '"'] cs = false := by
  obtain ⟨c, cs2, hcs, hshape⟩ := parse_i128_head h
  subst hcs
  have hc : c = '+' ∨ c = '-' ∨ c.isDigit := by
    rcases hshape with ⟨hpm, -, -⟩ | hall
    · rcases hpm with hpm | hpm
      · exact Or.inl hpm
      · exact Or.inr (Or.inl hpm)
    · exact Or.inr (Or.inr (hall c (by simp)))
  have head_ne : ∀ d : Char, d.isDigit = false → d ≠ '+' → d ≠ '-' → c ≠ d := by
    intro d hd hd1 hd2
    rcases hc with hc | hc | hc
    · rw [hc]; exact fun e => hd1 e.symm
    · rw [hc]; exact fun e => hd2 e.symm
    · exact isDigit_ne hc hd
  refine ⟨?_, ?_, ?_, ?_, ?_⟩
  · cases hq : startsWithL ['0', 'x'] (c :: cs2)
    · rfl
    · obtain ⟨r, hr⟩ := startsWithL_two hq
      injection hr with hr1 hr2
      rcases hshape with ⟨hpm, -, -⟩ | hall
      · rcases hpm with hpm | hpm <;> rw [hpm] at hr1 <;> cases hr1
      · have hx : ('x' : Char).isDigit = true := by
          apply hall
          rw [hr2]
          simp
        cases hx
  · exact startsWithL_cons_false _ _ (head_ne 'b' (by decide) (by decide) (by decide)).symm
  · exact startsWithL_cons_false _ _ (head_ne '\'' (by decide) (by decide) (by decide)).symm
  · exact startsWithL_cons_false _ _ (head_ne '"' (by decide) (by decide) (by decide)).symm
  · exact startsWithL_cons_false _ _ (head_ne 'b' (by decide) (by decide) (by decide)).symm

lemma convertLiteral_int {s : String} {sp : Span} {n : Int}
    (h : parse_i128 s.data = some n) :
    convertLiteral s sp = .ok [⟨Token.Integer n, sp⟩, ⟨Token.Float s, sp⟩] := by
  obtain ⟨h0x, hbq, hq, hdq, hbdq⟩ := guards_false_of_parse_i128 h
  have hf := isF64Literal_of_parse_i128 h
  have e1 : litIntStep s.data sp (true, []) = (false, [⟨Token.Integer n, sp⟩]) := by
    unfold litIntStep
    rw [h]
    simp
  have e2 : litFloatStep s.data s sp (false, [⟨Token.Integer n, sp⟩])
      = (false, [⟨Token.Integer n, sp⟩, ⟨Token.Float s, sp⟩]) := by
    unfold litFloatStep
    rw [hf]
    simp
  simp only [convertLiteral, e1, e2, litHexStep_id (by rw [h0x]; simp),
    litByteCharStep_id (by rw [hbq]; simp), litCharStep_id (by rw [hq]; simp),
    litStrStep_id (by rw [hdq]; simp), litByteStrStep_id (by rw [hbdq]; simp)]
  simp

lemma punct_token_shape {ch : Char} {tok : Token} (h : punct_token ch = some tok) :
    (∀ t, tok ≠ Token.Literal t) ∧ (∀ b, tok ≠ Token.ByteString b) := by
  unfold punct_token at h
  split at h <;>
    first
      | exact Option.noConfusion h
      | (injection h with h; subst h;
         exact ⟨fun t hc => Token.noConfusion hc, fun b hc => Token.noConfusion hc⟩)

mutual
theorem convert_token_tree_no_bytestring (t : TokenTree) :
    ∀ out, convert_token_tree t = .ok out →
      ∀ x ∈ out, ∀ b, x.token ≠ Token.ByteString b := by
  cases t with
  | Group delim sp inner =>
    intro out h x hx b
    cases hi : convert_token_trees inner with
    | error e =>
      simp only [convert_token_tree, hi] at h
      exact Except.noConfusion h
    | ok inner_toks =>
      simp only [convert_token_tree, hi] at h
      injection h with h
      subst h
      rcases List.mem_cons.mp hx with hx | hx
      · rw [hx]
        cases delim <;> simp
      · rcases List.mem_append.mp hx with hx | hx
        · exact convert_token_trees_no_bytestring inner inner_toks hi x hx b
        · simp at hx
          rw [hx]
          cases delim <;> simp
  | Ident text sp =>
    intro out h x hx b
    simp only [convert_token_tree] at h
    injection h with h
    subst h
    simp at hx
    rw [hx]
    simp
  | Punct ch sp =>
    intro out h x hx b
    cases hp : punct_token ch with
    | none =>
      simp only [convert_token_tree, hp] at h
      exact Except.noConfusion h
    | some tok =>
      simp only [convert_token_tree, hp] at h
      injection h with h
      subst h
      simp at hx
      rw [hx]
      exact (punct_token_shape hp).2 b
  | Literal text sp =>
    intro out h x hx b
    simp only [convert_token_tree] at h
    rcases convertLiteral_ok_mem h x hx with ⟨v, hv⟩ | hv | ⟨c, hv⟩ | ⟨c, hv⟩ |
        ⟨t2, hv⟩ | ⟨hv, -⟩ <;>
      (rw [hv]; simp)
theorem convert_token_trees_no_bytestring (ts : TokenTreeSeq) :
    ∀ out, convert_token_trees ts = .ok out →
      ∀ x ∈ out, ∀ b, x.token ≠ Token.ByteString b := by
  cases ts with
  | nil =>
    intro out h x hx b
    simp only [convert_token_trees] at h
    injection h with h
    subst h
    simp at hx
  | cons t ts2 =>
    intro out h x hx b
    cases h1 : convert_token_tree t with
    | error e =>
      simp only [convert_token_trees, h1] at h
      exact Except.noConfusion h
    | ok toks =>
      cases h2 : convert_token_trees ts2 with
      | error e =>
        simp only [convert_token_trees, h1, h2] at h
        exact Except.noConfusion h
      | ok rest =>
        simp only [convert_token_trees, h1, h2] at h
        injection h with h
        subst h
        rcases List.mem_append.mp hx with hx | hx
        · exact convert_token_tree_no_bytestring t toks h1 x hx b
        · exact convert_token_trees_no_bytestring ts2 rest h2 x hx b
end

/-! ## Stream lemmas -/

lemma USIZE_pos : 0 < USIZE := by norm_num [USIZE]

lemma advanceN_tokens (k : Nat) (s : TokenStream) : (advanceN k s).tokens = s.tokens := by
  induction k generalizing s with
  | zero => rfl
  | succ k ih =>
    rw [advanceN, ih]
    rfl

lemma advanceN_iter_ptr (k : Nat) (s : TokenStream) (h : s.iter_ptr < USIZE) :
    (advanceN k s).iter_ptr = (s.iter_ptr + k) % USIZE := by
  induction k generalizing s with
  | zero =>
    show s.iter_ptr = (s.iter_ptr + 0) % USIZE
    rw [Nat.add_zero, Nat.mod_eq_of_lt h]
  | succ k ih =>
    rw [advanceN]
    have h2 : ((s.next).2).iter_ptr = (s.iter_ptr + 1) % USIZE := rfl
    rw [ih (s.next).2 (by rw [h2]; exact Nat.mod_lt _ USIZE_pos)]
    rw [h2, Nat.mod_add_mod]
    congr 1
    omega

lemma recursive_convert_ok {input : TokenTreeSeq} {ts : TokenStream}
    (h : recursive_convert input = .ok ts) :
    ts.iter_ptr = 0 ∧ convert_token_trees input = .ok ts.tokens := by
  cases hc : convert_token_trees input with
  | error e =>
    simp only [recursive_convert, hc] at h
    exact Except.noConfusion h
  | ok toks =>
    simp only [recursive_convert, hc] at h
    injection h with h
    subst h
    exact ⟨rfl, rfl⟩

lemma advance_result {input : TokenTreeSeq} {ts : TokenStream}
    (h : recursive_convert input = .ok ts) (k : Nat) (hk : k + 1 < USIZE) :
    ((advanceN k ts).next).1 = ts.tokens[k + 1]? := by
  obtain ⟨hp, -⟩ := recursive_convert_ok h
  have ht := advanceN_tokens k ts
  have hi := advanceN_iter_ptr k ts (by rw [hp]; exact USIZE_pos)
  show (advanceN k ts).tokens[((advanceN k ts).iter_ptr + 1) % USIZE]? = _
  rw [ht, hi, hp, Nat.zero_add, Nat.mod_eq_of_lt (by omega : k < USIZE),
    Nat.mod_eq_of_lt hk]

lemma peek_result {input : TokenTreeSeq} {ts : TokenStream}
    (h : recursive_convert input = .ok ts) (k n : Nat) (hkn : k + n < USIZE) :
    ((advanceN k ts).peek n).1 = ts.tokens[k + n]? := by
  obtain ⟨hp, -⟩ := recursive_convert_ok h
  have ht := advanceN_tokens k ts
  have hi := advanceN_iter_ptr k ts (by rw [hp]; exact USIZE_pos)
  show (advanceN k ts).tokens[((advanceN k ts).iter_ptr + n) % USIZE]? = _
  rw [ht, hi, hp, Nat.zero_add, Nat.mod_eq_of_lt (by omega : k < USIZE),
    Nat.mod_eq_of_lt hkn]

/-! ## Claims -/

/-- C1 (counterexample): the claim says the first sequential advance on a
freshly classified non-empty stream returns the token at index 0; on the
stream classified from the two punctuation nodes `+` `-` the first call to
`next` returns the `Minus` token at index 1, not the `Plus` token at
index 0. -/
theorem claim_C1_counterexample :
    recursive_convert (.cons (.Punct '+' ⟨0⟩) (.cons (.Punct '-' ⟨1⟩) .nil))
      = .ok ⟨[⟨Token.Plus, ⟨0⟩⟩, ⟨Token.Minus, ⟨1⟩⟩], 0⟩
    ∧ ((⟨[⟨Token.Plus, ⟨0⟩⟩, ⟨Token.Minus, ⟨1⟩⟩], 0⟩ : TokenStream).tokens[0]?
        = some ⟨Token.Plus, ⟨0⟩⟩)
    ∧ ((⟨[⟨Token.Plus, ⟨0⟩⟩, ⟨Token.Minus, ⟨1⟩⟩], 0⟩ : TokenStream).next).1
        = some ⟨Token.Minus, ⟨1⟩⟩
    ∧ some (⟨Token.Minus, ⟨1⟩⟩ : SpannedToken) ≠ some (⟨Token.Plus, ⟨0⟩⟩ : SpannedToken) := by
  refine ⟨by decide, by decide, by decide, by decide⟩

/-- C1 (amended): a stream built by classification starts with
`iter_ptr = 0` and `next` increments the cursor before reading, so the
call after `k` previous advances returns the token at index `k + 1` (the
token at index 0 is never yielded); advances stay in order as long as the
cursor has not wrapped around `2 ^ 64`. -/
theorem claim_C1_amended (input : TokenTreeSeq) (ts : TokenStream)
    (h : recursive_convert input = .ok ts) (k : Nat) (hk : k + 1 < USIZE) :
    ((advanceN k ts).next).1 = ts.tokens[k + 1]? :=
  advance_result h k hk

/-- C1 (witness): on the two-token stream above, the very first advance
returns the token at index 1. -/
theorem claim_C1_amended_witness :
    ((advanceN 0 (⟨[⟨Token.Plus, ⟨0⟩⟩, ⟨Token.Minus, ⟨1⟩⟩], 0⟩ : TokenStream)).next).1
      = some ⟨Token.Minus, ⟨1⟩⟩ :=
  (claim_C1_amended (.cons (.Punct '+' ⟨0⟩) (.cons (.Punct '-' ⟨1⟩) .nil))
    ⟨[⟨Token.Plus, ⟨0⟩⟩, ⟨Token.Minus, ⟨1⟩⟩], 0⟩ (by decide) 0 (by decide)).trans
    (by decide)

/-- C2 (counterexample): the claim says `peek 1` on a freshly classified
non-empty stream returns the first token of the sequence; on the stream
classified from `+` `-` it returns the `Minus` token at index 1, not the
first token `Plus`. -/
theorem claim_C2_counterexample :
    recursive_convert (.cons (.Punct '+' ⟨0⟩) (.cons (.Punct '-' ⟨1⟩) .nil))
      = .ok ⟨[⟨Token.Plus, ⟨0⟩⟩, ⟨Token.Minus, ⟨1⟩⟩], 0⟩
    ∧ ((⟨[⟨Token.Plus, ⟨0⟩⟩, ⟨Token.Minus, ⟨1⟩⟩], 0⟩ : TokenStream).tokens[0]?
        = some ⟨Token.Plus, ⟨0⟩⟩)
    ∧ ((⟨[⟨Token.Plus, ⟨0⟩⟩, ⟨Token.Minus, ⟨1⟩⟩], 0⟩ : TokenStream).peek 1).1
        ≠ some ⟨Token.Plus, ⟨0⟩⟩ := by
  refine ⟨by decide, by decide, by decide⟩

/-- C2 (amended): after `k` advances on a classified stream, `peek n`
returns the token at index `k + n` (so on a fresh stream `peek 1` returns
the token at index 1, the same token the next advance would yield, and the
token at index 0 is unreachable for `n ≥ 1`); absence is signalled when no
such token exists. -/
theorem claim_C2_amended (input : TokenTreeSeq) (ts : TokenStream)
    (h : recursive_convert input = .ok ts) (k n : Nat) (hkn : k + n < USIZE) :
    ((advanceN k ts).peek n).1 = ts.tokens[k + n]?
    ∧ ((advanceN k ts).peek 1).1 = ((advanceN k ts).next).1 :=
  ⟨peek_result h k n hkn, rfl⟩

/-- C2 (witness): on the two-token stream above, `peek 1` before any
advance returns the token at index 1. -/
theorem claim_C2_amended_witness :
    ((advanceN 0 (⟨[⟨Token.Plus, ⟨0⟩⟩, ⟨Token.Minus, ⟨1⟩⟩], 0⟩ : TokenStream)).peek 1).1
      = some ⟨Token.Minus, ⟨1⟩⟩ :=
  ((claim_C2_amended (.cons (.Punct '+' ⟨0⟩) (.cons (.Punct '-' ⟨1⟩) .nil))
    ⟨[⟨Token.Plus, ⟨0⟩⟩, ⟨Token.Minus, ⟨1⟩⟩], 0⟩ (by decide) 0 1 (by decide)).1).trans
    (by decide)

/-- C3 (code bug): classification of the perfectly legal char literal
`' '` (a space between single quotes) aborts: the char heuristic trims the
quotes, then trims the whitespace away, and the `.expect("infallible -
guaranteed to be a char")` call fails on the empty remainder.  The
not-even-well-formed literal text `''` aborts the same way.  This
contradicts the claim (and the `expect` message) that the char heuristic
never aborts. -/
theorem claim_C3_bug :
    recursive_convert (.cons (.Literal (String.mk ['\'', ' ', '\'']) ⟨0⟩) .nil)
      = .error (.expectFailed "infallible - guaranteed to be a char")
    ∧ recursive_convert (.cons (.Literal (String.mk ['\'', '\'']) ⟨0⟩) .nil)
      = .error (.expectFailed "infallible - guaranteed to be a char") := by
  refine ⟨by decide, by decide⟩

/-- C4 (counterexample): the claim includes `{` in the supported
punctuation set, but a punctuation node holding `{` reaches the
`unreachable!()` branch (brace characters only ever arrive as grouping
delimiters, not as `Punct` nodes). -/
theorem claim_C4_counterexample :
    convert_token_trees (.cons (.Punct '{' ⟨0⟩) .nil)
      = .error (.unreachableBranch '{') := by
  decide

/-- C4 (amended): for every punctuation character in the set actually
mapped by the source table (the claimed set minus the bracket characters
`{ } [ ] ( )`), classifying a single punctuation node yields exactly one
token of the matching kind, never the fallback `Literal` kind and without
reaching the fatal branch. -/
theorem claim_C4_amended (c : Char) (tok : Token) (sp : Span)
    (h : (c, tok) ∈ supportedPunctPairs) :
    convert_token_trees (.cons (.Punct c sp) .nil) = .ok [⟨tok, sp⟩]
    ∧ ∀ t, tok ≠ Token.Literal t := by
  fin_cases h <;> exact ⟨rfl, fun t hc => Token.noConfusion hc⟩

/-- C4 (witness): the `+` node classifies to exactly one `Plus` token. -/
theorem claim_C4_amended_witness :
    convert_token_trees (.cons (.Punct '+' ⟨0⟩) .nil) = .ok [⟨Token.Plus, ⟨0⟩⟩]
    ∧ ∀ t, Token.Plus ≠ Token.Literal t :=
  claim_C4_amended '+' Token.Plus ⟨0⟩ (by decide)

/-- C5: a grouping node classifies to exactly
`[open marker, flattened inner contents, close marker]`, both markers
carrying the grouping node own span, with parenthesis→OpenParen/CloseParen,
brace→OpenBrace/CloseBrace, bracket→OpenBracket/CloseBracket and the
delimiter-less grouping using the None kind for both markers. -/
theorem claim_C5 (delim : Delimiter) (sp : Span) (inner : TokenTreeSeq)
    (innerToks : List SpannedToken) (h : convert_token_trees inner = .ok innerToks) :
    convert_token_trees (.cons (.Group delim sp inner) .nil)
      = .ok (⟨openMarker delim, sp⟩ :: (innerToks ++ [⟨closeMarker delim, sp⟩]))
    ∧ openMarker .Parenthesis = .OpenParen ∧ closeMarker .Parenthesis = .CloseParen
    ∧ openMarker .Brace = .OpenBrace ∧ closeMarker .Brace = .CloseBrace
    ∧ openMarker .Bracket = .OpenBracket ∧ closeMarker .Bracket = .CloseBracket
    ∧ openMarker .None = .None ∧ closeMarker .None = .None := by
  refine ⟨?_, rfl, rfl, rfl, rfl, rfl, rfl, rfl, rfl⟩
  cases delim <;>
    simp [convert_token_trees, convert_token_tree, h, openMarker, closeMarker]

/-- C5 (witness): a parenthesis grouping with span 7 around the identifier
`x` with span 1 classifies to OpenParen (span 7), the identifier (span 1),
CloseParen (span 7). -/
theorem claim_C5_witness :
    convert_token_trees (.cons (.Group .Parenthesis ⟨7⟩ (.cons (.Ident "x" ⟨1⟩) .nil)) .nil)
      = .ok [⟨Token.OpenParen, ⟨7⟩⟩, ⟨Token.Ident "x", ⟨1⟩⟩, ⟨Token.CloseParen, ⟨7⟩⟩] :=
  ((claim_C5 .Parenthesis ⟨7⟩ (.cons (.Ident "x" ⟨1⟩) .nil) [⟨Token.Ident "x", ⟨1⟩⟩]
    (by decide)).1).trans (by decide)

/-- C6 (counterexample): the claim says that after end-of-sequence has been
signalled every later advance also signals end-of-sequence, with no
wraparound; but `iter_ptr` is a `usize`, so on the one-token stream
classified from `+` the first advance signals end-of-sequence while the
`2 ^ 64`-th advance wraps the cursor to 0 and yields the `Plus` token
again. -/
theorem claim_C6_counterexample :
    recursive_convert (.cons (.Punct '+' ⟨0⟩) .nil) = .ok ⟨[⟨Token.Plus, ⟨0⟩⟩], 0⟩
    ∧ ((⟨[⟨Token.Plus, ⟨0⟩⟩], 0⟩ : TokenStream).next).1 = none
    ∧ ((advanceN (USIZE - 1) (⟨[⟨Token.Plus, ⟨0⟩⟩], 0⟩ : TokenStream)).next).1
        = some ⟨Token.Plus, ⟨0⟩⟩ := by
  refine ⟨by decide, by decide, ?_⟩
  have ht := advanceN_tokens (USIZE - 1) (⟨[⟨Token.Plus, ⟨0⟩⟩], 0⟩ : TokenStream)
  have hi := advanceN_iter_ptr (USIZE - 1) (⟨[⟨Token.Plus, ⟨0⟩⟩], 0⟩ : TokenStream)
    USIZE_pos
  show (advanceN (USIZE - 1) (⟨[⟨Token.Plus, ⟨0⟩⟩], 0⟩ : TokenStream)).tokens[
      ((advanceN (USIZE - 1) (⟨[⟨Token.Plus, ⟨0⟩⟩], 0⟩ : TokenStream)).iter_ptr + 1)
        % USIZE]? = some ⟨Token.Plus, ⟨0⟩⟩
  rw [ht, hi, Nat.mod_add_mod]
  have harith : (0 : Nat) + (USIZE - 1) + 1 = USIZE := by
    have := USIZE_pos
    omega
  rw [harith, Nat.mod_self]
  rfl

/-- C6 (amended): on a classified stream, every advance whose target index
`k + 1` is at least the length of the sequence signals end-of-sequence, as
long as fewer than `2 ^ 64` advances have been made in total (the `usize`
cursor wraps after that); in particular the first advance over an empty
stream signals end-of-sequence. -/
theorem claim_C6_amended (input : TokenTreeSeq) (ts : TokenStream)
    (h : recursive_convert input = .ok ts) (k : Nat)
    (hlen : ts.tokens.length ≤ k + 1) (hk : k + 1 < USIZE) :
    ((advanceN k ts).next).1 = none := by
  rw [advance_result h k hk]
  exact List.getElem?_eq_none hlen

/-- C6 (witness): on the one-token stream above, the second advance (after
end-of-sequence was already signalled) returns `none`. -/
theorem claim_C6_amended_witness :
    ((advanceN 1 (⟨[⟨Token.Plus, ⟨0⟩⟩], 0⟩ : TokenStream)).next).1 = none :=
  claim_C6_amended (.cons (.Punct '+' ⟨0⟩) .nil) ⟨[⟨Token.Plus, ⟨0⟩⟩], 0⟩
    (by decide) 1 (by decide) (by decide)

/-- C7: a literal node whose text parses as a decimal `i128` (such as `42`)
always yields exactly two tokens: the `Integer` token with the parsed value
followed immediately by a `Float` token, because such text also satisfies
the independently attempted `f64` grammar and no further heuristic nor the
fallback can fire. -/
theorem claim_C7 (s : String) (sp : Span) (n : Int) (h : parse_i128 s.data = some n) :
    convert_token_trees (.cons (.Literal s sp) .nil)
      = .ok [⟨Token.Integer n, sp⟩, ⟨Token.Float s, sp⟩] := by
  simp [convert_token_trees, convert_token_tree, convertLiteral_int h]

/-- C7 (witness): the literal `42` yields `Integer 42` followed by a
`Float` token. -/
theorem claim_C7_witness :
    convert_token_trees (.cons (.Literal "42" ⟨0⟩) .nil)
      = .ok [⟨Token.Integer 42, ⟨0⟩⟩, ⟨Token.Float "42", ⟨0⟩⟩] :=
  claim_C7 "42" ⟨0⟩ 42 (by decide)

/-- C8: when every literal heuristic fails (as for `1_000u32`),
classification of the literal node yields exactly one `Literal` token
holding the raw text unchanged; and whenever some heuristic matched, no
`Literal` token appears in the output at all. -/
theorem claim_C8 (s : String) (sp : Span) :
    (literalHeuristicMatches s.data = false →
      convert_token_trees (.cons (.Literal s sp) .nil) = .ok [⟨Token.Literal s, sp⟩])
    ∧ (∀ out, convert_token_trees (.cons (.Literal s sp) .nil) = .ok out →
        literalHeuristicMatches s.data = true →
        ∀ x ∈ out, ∀ t, x.token ≠ Token.Literal t) := by
  constructor
  · intro hm
    simp [convert_token_trees, convert_token_tree, convertLiteral_no_match hm]
  · intro out h hm x hx t
    cases hc : convertLiteral s sp with
    | error e =>
      simp only [convert_token_trees, convert_token_tree, hc] at h
      exact Except.noConfusion h
    | ok toks =>
      simp only [convert_token_trees, convert_token_tree, hc] at h
      injection h with h
      subst h
      rcases convertLiteral_ok_mem hc x (by simpa using hx) with ⟨v, hv⟩ | hv |
          ⟨c, hv⟩ | ⟨c, hv⟩ | ⟨t2, hv⟩ | ⟨hv, hm2⟩
      · rw [hv]; simp
      · rw [hv]; simp
      · rw [hv]; simp
      · rw [hv]; simp
      · rw [hv]; simp
      · rw [hm] at hm2
        exact Bool.noConfusion hm2

/-- C8 (witness): `1_000u32` fails every heuristic and yields exactly the
raw `Literal` token, while for `42` (where heuristics matched) no token of
the output is a `Literal`. -/
theorem claim_C8_witness :
    convert_token_trees (.cons (.Literal "1_000u32" ⟨0⟩) .nil)
      = .ok [⟨Token.Literal "1_000u32", ⟨0⟩⟩]
    ∧ ∀ x ∈ [(⟨Token.Integer 42, ⟨0⟩⟩ : SpannedToken), ⟨Token.Float "42", ⟨0⟩⟩],
        ∀ t, x.token ≠ Token.Literal t :=
  ⟨(claim_C8 "1_000u32" ⟨0⟩).1 (by decide),
   (claim_C8 "42" ⟨0⟩).2 [⟨Token.Integer 42, ⟨0⟩⟩, ⟨Token.Float "42", ⟨0⟩⟩]
     (by decide) (by decide)⟩

/-- C9: `peek` never mutates the stream, so interleaving any number of
`peek` calls between advances leaves the whole sequence of advance results
(and the final stream state) exactly as it would be without the peeks. -/
theorem claim_C9 (s : TokenStream) (n : Nat) (ops : List StreamOp) :
    (s.peek n).2 = s ∧ runOps ops s = runOps (ops.filter StreamOp.isAdvance) s := by
  refine ⟨rfl, ?_⟩
  induction ops generalizing s with
  | nil => rfl
  | cons op ops ih =>
    cases op with
    | peekAt m =>
      show runOps ops (s.peek m).2 = _
      rw [show (s.peek m).2 = s from rfl, ih s]
      congr 1
    | advance =>
      have hfil : List.filter StreamOp.isAdvance (StreamOp.advance :: ops)
          = StreamOp.advance :: List.filter StreamOp.isAdvance ops := rfl
      rw [hfil]
      show ((s.next).1 :: (runOps ops (s.next).2).1, (runOps ops (s.next).2).2)
          = ((s.next).1 :: (runOps (List.filter StreamOp.isAdvance ops) (s.next).2).1,
             (runOps (List.filter StreamOp.isAdvance ops) (s.next).2).2)
      rw [ih (s.next).2]

/-- C10: classification never produces a `ByteString` token: for every
input tree that classifies successfully, no output token is of the
`ByteString` kind (the byte-string heuristic emits the ordinary `String`
kind instead). -/
theorem claim_C10 (input : TokenTreeSeq) (out : List SpannedToken)
    (h : convert_token_trees input = .ok out) :
    ∀ x ∈ out, ∀ b, x.token ≠ Token.ByteString b :=
  convert_token_trees_no_bytestring input out h

/-- C10 (witness): the byte-string literal `b"hi"` classifies to a
`String` token, which is not a `ByteString` token. -/
theorem claim_C10_witness :
    (SpannedToken.mk (Token.String "hi") ⟨0⟩).token ≠ Token.ByteString "hi" :=
  claim_C10 (.cons (.Literal "b\"hi\"" ⟨0⟩) .nil) [⟨Token.String "hi", ⟨0⟩⟩]
    (by decide) ⟨Token.String "hi", ⟨0⟩⟩ (by decide) "hi"

end TokenStream2
